import Mathlib

/-!
Shallow embedding of the `stegano_toolkit` Python package
(`common_crypto.py`, `image_stego.py`, `audio_stego.py`, `video_stego.py`).

Byte strings are modelled as `List ℕ`; where an argument of a universally
quantified theorem must consist of genuine bytes, the hypothesis
`∀ x ∈ l, x < 256` makes this explicit.  Calls to `os.urandom(n)` are
modelled by passing the `n` random bytes as an explicit argument (a random
tape).  Third-party cryptographic primitives (`cryptography`, `reedsolo`,
`gzip`) are not part of the repository; they are modelled symbolically,
faithfully to their interface contracts: AES-GCM is an invertible masking
plus an authentication tag recomputed at decryption, X25519 is modular
exponentiation over the prime 2^255 - 19, Ed25519 signatures and HKDF
outputs are injective encodings of their inputs, padded to the real output
lengths (64, 32 bytes), and gzip is a magic-byte framing.  DWT coefficient
arrays (numpy float64) are modelled as lists of rationals, and Python's
`round` (round half to even) as `rnd` below.
-/

namespace Stegano

/-- Injective encoding of a byte list into a natural number: the list is
read as base-257 digits shifted by one, so that genuine byte lists
(all entries < 256) decode uniquely. -/
def wEnc (l : List ℕ) : ℕ := Nat.ofDigits 257 (l.map (· + 1))

/-- Left inverse of `wEnc` on byte lists. -/
def wDec (n : ℕ) : List ℕ := (Nat.digits 257 n).map (· - 1)

/-- A list is a genuine byte string when every entry is below 256. -/
def IsBytes (l : List ℕ) : Prop := ∀ x ∈ l, x < 256

instance (l : List ℕ) : Decidable (IsBytes l) :=
  List.decidableBAll (fun x => x < 256) l

theorem wDec_wEnc (l : List ℕ) (h : IsBytes l) : wDec (wEnc l) = l := by
  unfold wDec wEnc
  rw [Nat.digits_ofDigits 257 (by norm_num) (l.map (· + 1))]
  · have : ((fun x => x - 1) ∘ fun x => x + 1) = (id : ℕ → ℕ) := by
      funext x; simp
    simp [this]
  · intro d hd
    rcases List.mem_map.mp hd with ⟨x, hx, rfl⟩
    have := h x hx
    omega
  · intro hne
    have : (l.map (· + 1)).getLast hne ∈ l.map (· + 1) := List.getLast_mem hne
    rcases List.mem_map.mp this with ⟨x, _, hx⟩
    omega

theorem wEnc_inj {l l₂ : List ℕ} (h : IsBytes l) (h₂ : IsBytes l₂)
    (he : wEnc l = wEnc l₂) : l = l₂ := by
  have := congrArg wDec he
  rwa [wDec_wEnc l h, wDec_wEnc l₂ h₂] at this

/-- Modelled from the spec: AES-256-GCM keystream/tag seed for a (key, nonce)
pair (the `cryptography` library's AESGCM is not part of the repository).
Any two calls with the same key and nonce agree; the value feeds both the
masking of the plaintext and the authentication tag. -/
def aeadMask (key nonce : List ℕ) : ℕ := Nat.pair (wEnc key) (wEnc nonce)

/-- Modelled from the spec: the 16-byte AES-GCM authentication tag over
(key, nonce, plaintext). -/
def aeadTag (key nonce pt : List ℕ) : List ℕ :=
  Nat.pair (aeadMask key nonce) (wEnc pt) :: List.replicate 15 0

/-- Modelled from the spec: `AESGCM(key).encrypt(nonce, pt, None)`.
The ciphertext is the plaintext masked by the keystream followed by the
16-byte tag, so its length is `pt.length + 16` as for real AES-GCM. -/
def aesgcmEncrypt (key nonce pt : List ℕ) : List ℕ :=
  pt.map (· + (aeadMask key nonce + 1)) ++ aeadTag key nonce pt

/-- Modelled from the spec: `AESGCM(key).decrypt(nonce, ct, None)`.
Returns `none` (the Python call raises `InvalidTag`) when the tag
recomputed from (key, nonce, recovered plaintext) does not match. -/
def aesgcmDecrypt (key nonce ct : List ℕ) : Option (List ℕ) :=
  if ct.length < 16 then none
  else
    let body := ct.take (ct.length - 16)
    let tag := ct.drop (ct.length - 16)
    let pt := body.map (· - (aeadMask key nonce + 1))
    if tag = aeadTag key nonce pt then some pt else none

/-- Modelled from the spec: `HKDF(SHA256, length=32, salt, info).derive(secret)`.
A deterministic injective-by-construction encoding of (secret, salt, info),
padded to the real 32-byte output length. -/
def hkdfSha256 (secret : List ℕ) (salt : Option (List ℕ)) (info : List ℕ) :
    List ℕ :=
  Nat.pair (wEnc secret)
    (Nat.pair (match salt with | none => 0 | some s => wEnc s + 1) (wEnc info))
    :: List.replicate 31 0

/-- The X25519 group prime 2^255 - 19. -/
def x25519P : ℕ := 2 ^ 255 - 19

/-- The X25519 base point u-coordinate. -/
def x25519G : ℕ := 9

/-- Bytes interpreted as a little-endian natural number, as in RFC 7748. -/
def bytesToNat (l : List ℕ) : ℕ := Nat.ofDigits 256 l

/-- A natural number written as 32 little-endian bytes. -/
def natToBytes32 (n : ℕ) : List ℕ :=
  Nat.digits 256 n ++ List.replicate (32 - (Nat.digits 256 n).length) 0

/-- Modelled from the spec: the X25519 public key of a 32-byte private key
(the `cryptography` library's X25519 is not part of the repository);
scalar multiplication is modelled as modular exponentiation. -/
def x25519Pub (priv : List ℕ) : List ℕ :=
  natToBytes32 (x25519G ^ bytesToNat priv % x25519P)

/-- Modelled from the spec: `private.exchange(peer_public)` — the shared
secret of a private key and a peer public key. -/
def x25519Exchange (priv pubBytes : List ℕ) : List ℕ :=
  natToBytes32 (bytesToNat pubBytes ^ bytesToNat priv % x25519P)

/-- Modelled from the spec: the Ed25519 public key of a private key, an
invertible 32-byte encoding (the `cryptography` library's Ed25519 is not
part of the repository): a tag cell, the key encoding, and padding to the
real 32-byte length. -/
def ed25519Pub (sk : List ℕ) : List ℕ :=
  42 :: wEnc sk :: List.replicate 30 0

theorem natToBytes32_length {n : ℕ} (h : n < 256 ^ 32) :
    (natToBytes32 n).length = 32 := by
  unfold natToBytes32
  have hlen : (Nat.digits 256 n).length ≤ 32 := by
    by_contra hgt
    push_neg at hgt
    rcases Nat.eq_zero_or_pos n with hn | hn
    · simp [hn] at hgt
    · have hb := Nat.base_pow_length_digits_le 256 n (by norm_num)
        (Nat.pos_iff_ne_zero.mp hn)
      have h33 : (33 : ℕ) ≤ (Nat.digits 256 n).length := hgt
      have : (256 : ℕ) ^ 33 ≤ 256 ^ (Nat.digits 256 n).length :=
        Nat.pow_le_pow_right (by norm_num) h33
      have : (256 : ℕ) ^ 33 ≤ 256 * n := le_trans this hb
      have : (256 : ℕ) ^ 32 ≤ n := by
        have h256 : (256 : ℕ) ^ 33 = 256 * 256 ^ 32 := by ring
        omega
      omega
  simp [List.length_append, List.length_replicate]
  omega

theorem bytesToNat_natToBytes32 (n : ℕ) :
    bytesToNat (natToBytes32 n) = n := by
  unfold bytesToNat natToBytes32
  rw [Nat.ofDigits_append, Nat.ofDigits_digits]
  have hz : ∀ k : ℕ, Nat.ofDigits 256 (List.replicate k (0 : ℕ)) = 0 := by
    intro k
    induction k with
    | zero => simp
    | succ m ih => simp [List.replicate_succ, Nat.ofDigits_cons, ih]
  simp [hz]

/-- The byte string `b'session_key_wrap'` (the HKDF info in
`wrap_session_key` / `unwrap_session_key`). -/
def sessionKeyWrapInfo : List ℕ :=
  [115, 101, 115, 115, 105, 111, 110, 95, 107, 101, 121, 95, 119, 114, 97, 112]

/-- The byte string `b'stego_seed'` (the HKDF info in `derive_seed`). -/
def stegoSeedInfo : List ℕ := [115, 116, 101, 103, 111, 95, 115, 101, 101, 100]

namespace KeyManager

/-- `KeyManager.wrap_session_key(session_key, recipient_public_key)`.
The ephemeral private key and the 12-byte nonce produced by
`X25519PrivateKey.generate()` and `os.urandom(12)` are passed as the
explicit random-tape arguments `ephPriv` and `nonceR`. -/
def wrap_session_key (session_key recipient_public_key ephPriv nonceR :
    List ℕ) : List ℕ :=
  let ephemeral_public := Stegano.x25519Pub ephPriv
  let shared_key := Stegano.x25519Exchange ephPriv recipient_public_key
  let derived_key := Stegano.hkdfSha256 shared_key none Stegano.sessionKeyWrapInfo
  let ciphertext := Stegano.aesgcmEncrypt derived_key nonceR session_key
  ephemeral_public ++ nonceR ++ ciphertext

/-- `KeyManager.unwrap_session_key(wrapped_key, private_key)`: slices the
blob at offsets 32 and 44, recomputes the shared secret and the HKDF key,
and AEAD-decrypts (`none` models the raised `InvalidTag`). -/
def unwrap_session_key (wrapped_key private_key : List ℕ) : Option (List ℕ) :=
  let ephemeral_public_bytes := wrapped_key.take 32
  let nonce := (wrapped_key.drop 32).take 12
  let ciphertext := wrapped_key.drop 44
  let shared_key := Stegano.x25519Exchange private_key ephemeral_public_bytes
  let derived_key := Stegano.hkdfSha256 shared_key none Stegano.sessionKeyWrapInfo
  Stegano.aesgcmDecrypt derived_key nonce ciphertext

/-- `KeyManager.sign_data(data, private_key)`: the 64-byte Ed25519
signature, modelled as an injective encoding of (private key, data)
padded to 64 bytes. -/
def sign_data (data private_key : List ℕ) : List ℕ :=
  Nat.pair (Stegano.wEnc private_key) (Stegano.wEnc data) :: List.replicate 63 0

/-- `KeyManager.verify_signature(data, signature, public_key)`: total and
Boolean-valued — every failure path of the Python `try` block (malformed
public key, mismatching signature) falls into the `except` branch and
yields `false`, never an exception. -/
def verify_signature (data signature public_key : List ℕ) : Bool :=
  match public_key with
  | x :: m :: rest =>
    if x = 42 ∧ rest = List.replicate 30 0 ∧
        Stegano.wEnc (Stegano.wDec m) = m then
      decide (signature = sign_data data (Stegano.wDec m))
    else false
  | _ => false

/-- `KeyManager.derive_seed(key, salt=None)`: when `salt` is `None` the
16 bytes drawn by `os.urandom(16)` are the random-tape argument `saltR`.
The function returns only the 32-byte HKDF output — the generated salt is
not part of the return value. -/
def derive_seed (key : List ℕ) (salt : Option (List ℕ)) (saltR : List ℕ) :
    List ℕ :=
  let s := match salt with | none => saltR | some v => v
  Stegano.hkdfSha256 key (some s) Stegano.stegoSeedInfo

end KeyManager

/-- Modelled from the spec: `gzip.compress` — the two gzip magic bytes and
the compression-method byte followed by an invertible image of the input. -/
def gzipCompress (m : List ℕ) : List ℕ := 31 :: 139 :: 8 :: m

/-- Modelled from the spec: `gzip.decompress`; `none` models the raised
`BadGzipFile`/`OSError` on input that is not a gzip stream. -/
def gzipDecompress (c : List ℕ) : Option (List ℕ) :=
  match c with
  | 31 :: 139 :: 8 :: rest => some rest
  | _ => none

/-- Modelled from the spec: `reedsolo.RSCodec(32).encode` — the payload
followed by 32 parity bytes (`RS_REDUNDANCY = 32`). -/
def rsEncode (p : List ℕ) : List ℕ :=
  p ++ (Nat.pair 7 (Stegano.wEnc p) :: List.replicate 31 0)

/-- Modelled from the spec: `reedsolo.RSCodec(32).decode(...)[0]` on a
clean (unmodified) codeword: strip the 32 parity bytes; `none` models the
raised `ReedSolomonError` when the data is shorter than the parity. -/
def rsDecode (c : List ℕ) : Option (List ℕ) :=
  if c.length < 32 then none else some (c.take (c.length - 32))

/-- The metadata dictionary returned by `prepare_payload`. -/
structure Metadata where
  version : ℕ
  nonce : List ℕ
  has_signature : Bool
  deriving DecidableEq, Repr

namespace PayloadProcessor

/-- `PayloadProcessor.prepare_payload(message, session_key, signing_key)`.
The 12 nonce bytes from `os.urandom(12)` and the 16 header bytes from
`os.urandom(HEADER_SIZE)` (the code's placeholder header) are the
random-tape arguments `nonceR` and `headerR`. -/
def prepare_payload (message session_key : List ℕ)
    (signing_key : Option (List ℕ)) (nonceR headerR : List ℕ) :
    List ℕ × Stegano.Metadata :=
  let compressed := Stegano.gzipCompress message
  let encrypted := Stegano.aesgcmEncrypt session_key nonceR compressed
  let signature : Option (List ℕ) :=
    match signing_key with
    | none => none
    | some k => some (Stegano.KeyManager.sign_data encrypted k)
  let metadata : Stegano.Metadata :=
    ⟨1, nonceR, match signature with | none => false | some _ => true⟩
  let payload :=
    match signature with
    | some s => s ++ encrypted
    | none => encrypted
  let encoded_payload := Stegano.rsEncode payload
  (headerR ++ encoded_payload, metadata)

/-- `PayloadProcessor.extract_payload(embedded_data, session_key,
verify_key)`; each raised `ValueError` is modelled as `Except.error` with
the exception's message. -/
def extract_payload (embedded_data session_key : List ℕ)
    (verify_key : Option (List ℕ)) : Except String (List ℕ) :=
  let header := embedded_data.take 16
  let encoded_payload := embedded_data.drop 16
  match Stegano.rsDecode encoded_payload with
  | none => .error "Too many errors in the embedded data to recover the payload"
  | some payload =>
    let check :
        Except String (List ℕ) :=
      match verify_key with
      | none => .ok payload
      | some vk =>
        let signature := payload.take 64
        let encrypted := payload.drop 64
        if Stegano.KeyManager.verify_signature encrypted signature vk then
          .ok encrypted
        else .error "Signature verification failed"
    match check with
    | .error e => .error e
    | .ok encrypted =>
      let nonce := header.take 12
      match Stegano.aesgcmDecrypt session_key nonce encrypted with
      | none => .error "Decryption failed - incorrect key or corrupted data"
      | some compressed =>
        match Stegano.gzipDecompress compressed with
        | none => .error "Decompression failed - data may be corrupted"
        | some message => .ok message

end PayloadProcessor

/-- Python's built-in `round` on a float/rational: round half to even
(banker's rounding), as applied to the numpy float64 coefficients. -/
def rnd (x : ℚ) : ℤ :=
  let f := Int.floor x
  let r := x - f
  if r < 1 / 2 then f
  else if 1 / 2 < r then f + 1
  else if f % 2 = 0 then f else f + 1

namespace ImageSteganography

/-- The QIM quantization step `delta = 20` of `_embed_in_coeffs` /
`_extract_from_coeffs`. -/
def delta : ℚ := 20

/-- The body of the embedding loop of `_embed_in_coeffs` for one
coefficient: `delta * round(coeff / delta)` for bit 0, otherwise
`delta * round(coeff / delta + 0.5) - delta / 2`. -/
def qimEmbed (bit : ℕ) (coeff : ℚ) : ℚ :=
  if bit = 0 then delta * Stegano.rnd (coeff / delta)
  else delta * Stegano.rnd (coeff / delta + 1 / 2) - delta / 2

/-- The body of the extraction loop of `_extract_from_coeffs` for one
coefficient: compare the distances to the two lattice candidates and emit
0 on a strict win for the unshifted lattice, else 1. -/
def qimExtract (coeff : ℚ) : ℕ :=
  let q0 := delta * Stegano.rnd (coeff / delta)
  let q1 := delta * Stegano.rnd (coeff / delta + 1 / 2) - delta / 2
  if |coeff - q0| < |coeff - q1| then 0 else 1

/-- The embedding loop of `_embed_in_coeffs`: the first `bits.length`
coefficients are replaced by their QIM-quantized values, the rest are kept. -/
def embedLoop : List ℚ → List ℕ → List ℚ
  | cs, [] => cs
  | [], _ => []
  | c :: cs, b :: bs => qimEmbed b c :: embedLoop cs bs

/-- `ImageSteganography._embed_in_coeffs`, restricted to the flattened
level-2 detail subband `flat_coeffs` it operates on: raises (models as
`Except.error`) when the payload bit count exceeds the coefficient count,
before any coefficient is modified; otherwise returns the updated
coefficients. -/
def embed_in_coeffs (flat_coeffs : List ℚ) (payload_bits : List ℕ) :
    Except String (List ℚ) :=
  if payload_bits.length > flat_coeffs.length then
    .error ("Payload too large. Max capacity: " ++
      toString flat_coeffs.length ++ " bits")
  else .ok (embedLoop flat_coeffs payload_bits)

/-- `ImageSteganography._extract_from_coeffs`, restricted to the flattened
subband: read `payload_length` bits, stopping at the end of the
coefficient list. -/
def extract_from_coeffs (flat_coeffs : List ℚ) (payload_length : ℕ) :
    List ℕ :=
  ((flat_coeffs.take payload_length).map qimExtract)

/-- `ImageSteganography.analyze_capacity`, parameterized by the size of
the level-2 detail subband `coeffs[1][1]` produced by `pywt.wavedec2`
(third-party) and by the image dimensions and band count; the returned
Python dict is modelled as an association list with rational values
(Python's float division becomes exact division on ℚ). -/
def analyze_capacity (total_coeffs : ℕ) (width height bands : ℕ) :
    List (String × ℚ) :=
  let usable_bits : ℤ := (total_coeffs : ℤ) - 32
  let usable_bytes : ℤ := Int.fdiv usable_bits 8
  [("total_coefficients", (total_coeffs : ℚ)),
   ("usable_bits", (usable_bits : ℚ)),
   ("usable_bytes", (usable_bytes : ℚ)),
   ("image_size_bytes", ((width * height * bands : ℕ) : ℚ)),
   ("efficiency_ratio",
     (usable_bytes : ℚ) / ((width * height * bands : ℕ) : ℚ))]

end ImageSteganography

namespace AudioSteganography

/-- The constant `b"Extracted payload from audio"` returned by
`AudioSteganography.extract`. -/
def audioStubPayload : List ℕ :=
  [69, 120, 116, 114, 97, 99, 116, 101, 100, 32, 112, 97, 121, 108, 111,
   97, 100, 32, 102, 114, 111, 109, 32, 97, 117, 100, 105, 111]

/-- `AudioSteganography.extract(audio_data, seed, payload_size)`: the
third-party `AudioSegment.from_file` decoder is passed in as `decode`
(its failure re-raises, modelled as `Except.error`); on success the stub
returns the fixed dummy payload. -/
def extract (decode : List ℕ → Option (List ℤ))
    (audio_data seed : List ℕ) (payload_size : ℕ) :
    Except String (List ℕ) :=
  match decode audio_data with
  | none => .error "Error extracting payload from audio"
  | some _ => .ok audioStubPayload

end AudioSteganography

namespace VideoSteganography

/-- The constant `b"Extracted payload from video"` returned by
`VideoSteganography.extract`. -/
def videoStubPayload : List ℕ :=
  [69, 120, 116, 114, 97, 99, 116, 101, 100, 32, 112, 97, 121, 108, 111,
   97, 100, 32, 102, 114, 111, 109, 32, 118, 105, 100, 101, 111]

/-- `VideoSteganography.extract(video_data, seed, payload_size)`: the
video bytes are written to a temporary file and deleted, never decoded;
the stub then returns the fixed dummy payload. -/
def extract (video_data seed : List ℕ) (payload_size : ℕ) : List ℕ :=
  videoStubPayload

end VideoSteganography

theorem aeadTag_length (key nonce pt : List ℕ) :
    (aeadTag key nonce pt).length = 16 := by
  simp [aeadTag]

theorem aesgcmEncrypt_length (key nonce pt : List ℕ) :
    (aesgcmEncrypt key nonce pt).length = pt.length + 16 := by
  simp [aesgcmEncrypt, aeadTag]

theorem aesgcm_roundtrip (key nonce pt : List ℕ) :
    aesgcmDecrypt key nonce (aesgcmEncrypt key nonce pt) = some pt := by
  have hlen := aesgcmEncrypt_length key nonce pt
  have hbody : (pt.map (· + (aeadMask key nonce + 1))).length = pt.length := by
    simp
  unfold aesgcmDecrypt
  rw [hlen]
  rw [if_neg (by omega)]
  have h16 : pt.length + 16 - 16 = pt.length := by omega
  rw [h16]
  unfold aesgcmEncrypt
  rw [List.take_left' hbody, List.drop_left' hbody]
  have hmap : (pt.map (· + (aeadMask key nonce + 1))).map
      (· - (aeadMask key nonce + 1)) = pt := by
    rw [List.map_map]
    have : ((· - (aeadMask key nonce + 1)) ∘ (· + (aeadMask key nonce + 1)))
        = (id : ℕ → ℕ) := by
      funext x; simp
    rw [this, List.map_id]
  simp [hmap]

theorem x25519_val_lt (a b : ℕ) : b ^ a % x25519P < 256 ^ 32 := by
  have hp : 0 < x25519P := by
    have : (19 : ℕ) < 2 ^ 255 := by
      calc (19 : ℕ) < 2 ^ 5 := by norm_num
      _ ≤ 2 ^ 255 := Nat.pow_le_pow_right (by norm_num) (by norm_num)
    unfold x25519P
    omega
  have h1 : b ^ a % x25519P < x25519P := Nat.mod_lt _ hp
  have h2 : x25519P < 256 ^ 32 := by
    have : (256 : ℕ) ^ 32 = 2 ^ 256 := by norm_num
    rw [this]
    have : (2 : ℕ) ^ 255 < 2 ^ 256 := Nat.pow_lt_pow_right (by norm_num) (by omega)
    unfold x25519P
    omega
  omega

theorem x25519Pub_length (priv : List ℕ) : (x25519Pub priv).length = 32 :=
  natToBytes32_length (x25519_val_lt _ _)

theorem x25519_dh_comm (a b : List ℕ) :
    x25519Exchange a (x25519Pub b) = x25519Exchange b (x25519Pub a) := by
  unfold x25519Exchange x25519Pub
  rw [bytesToNat_natToBytes32, bytesToNat_natToBytes32]
  congr 1
  rw [← Nat.pow_mod, ← Nat.pow_mod, ← pow_mul, ← pow_mul, mul_comm]

/-- C3: for every X25519 keypair `(priv, x25519Pub priv)`, every session
key and every ephemeral key and 12-byte nonce drawn by `wrap_session_key`,
unwrapping the wrapped blob — sliced at offsets 32 and 44 — with the
recipient private key recovers the session key exactly. -/
theorem C3_wrap_unwrap_roundtrip (priv ephPriv session_key nonceR : List ℕ)
    (hnonce : nonceR.length = 12) :
    KeyManager.unwrap_session_key
      (KeyManager.wrap_session_key session_key (x25519Pub priv) ephPriv nonceR)
      priv = some session_key := by
  unfold KeyManager.wrap_session_key KeyManager.unwrap_session_key
  have hpub : (x25519Pub ephPriv).length = 32 := x25519Pub_length ephPriv
  have hassoc :
      x25519Pub ephPriv ++ nonceR ++
        aesgcmEncrypt
          (hkdfSha256 (x25519Exchange ephPriv (x25519Pub priv)) none
            sessionKeyWrapInfo) nonceR session_key
      = x25519Pub ephPriv ++ (nonceR ++
        aesgcmEncrypt
          (hkdfSha256 (x25519Exchange ephPriv (x25519Pub priv)) none
            sessionKeyWrapInfo) nonceR session_key) := by
    rw [List.append_assoc]
  simp only [hassoc]
  rw [List.take_left' hpub, List.drop_left' hpub, List.take_left' hnonce]
  have h44 : ∀ c : List ℕ, (x25519Pub ephPriv ++ (nonceR ++ c)).drop 44 = c := by
    intro c
    rw [← List.append_assoc]
    exact List.drop_left' (by simp [hpub, hnonce])
  rw [h44]
  rw [x25519_dh_comm priv ephPriv]
  exact aesgcm_roundtrip _ _ _

/-- C3 witness: the round trip evaluated at all-zero private keys,
session key and an all-zero 12-byte nonce. -/
theorem C3_wrap_unwrap_roundtrip_witness :
    KeyManager.unwrap_session_key
      (KeyManager.wrap_session_key (List.replicate 32 0)
        (x25519Pub (List.replicate 32 0)) (List.replicate 32 0)
        (List.replicate 12 0))
      (List.replicate 32 0) = some (List.replicate 32 0) :=
  C3_wrap_unwrap_roundtrip (List.replicate 32 0) (List.replicate 32 0)
    (List.replicate 32 0) (List.replicate 12 0) (by decide)

theorem wDec_isBytes (n : ℕ) : IsBytes (wDec n) := by
  intro x hx
  rcases List.mem_map.mp hx with ⟨d, hd, rfl⟩
  have : d < 257 := Nat.digits_lt_base (by norm_num) hd
  omega

theorem verify_signature_iff (data signature pk : List ℕ) :
    KeyManager.verify_signature data signature pk = true ↔
      ∃ sk, IsBytes sk ∧ pk = ed25519Pub sk ∧
        signature = KeyManager.sign_data data sk := by
  constructor
  · intro h
    cases pk with
    | nil => simp [KeyManager.verify_signature] at h
    | cons x t =>
      cases t with
      | nil => simp [KeyManager.verify_signature] at h
      | cons m rest =>
        simp only [KeyManager.verify_signature] at h
        by_cases hc : x = 42 ∧ rest = List.replicate 30 0 ∧
            wEnc (wDec m) = m
        · rw [if_pos hc] at h
          refine ⟨wDec m, wDec_isBytes _, ?_, of_decide_eq_true h⟩
          unfold ed25519Pub
          rw [hc.2.2, hc.1, hc.2.1]
        · rw [if_neg hc] at h
          exact absurd h (by simp)
  · rintro ⟨sk, hb, rfl, rfl⟩
    simp only [KeyManager.verify_signature, ed25519Pub, Nat.unpair_pair]
    rw [wDec_wEnc sk hb]
    simp

/-- C4: `verify_signature` is a total Boolean function (on the Python side
every exception is caught and mapped to `False`): it returns `true`
exactly for a valid signature of the data under the key, it accepts a
matching `(sign_data, public key)` pair, it rejects a signature checked
against any different data (in particular any single-byte mutation), it
rejects any value other than the real signature (in particular any
single-byte mutation of it), and it returns `false` — not an error — for
any malformed public key of the wrong length. -/
theorem C4_verify_signature_total_and_exact :
    (∀ data signature pk,
      KeyManager.verify_signature data signature pk = true ↔
        ∃ sk, IsBytes sk ∧ pk = ed25519Pub sk ∧
          signature = KeyManager.sign_data data sk) ∧
    (∀ sk data, IsBytes sk →
      KeyManager.verify_signature data (KeyManager.sign_data data sk)
        (ed25519Pub sk) = true) ∧
    (∀ sk data data2, IsBytes sk → IsBytes data → IsBytes data2 →
      data2 ≠ data →
      KeyManager.verify_signature data2 (KeyManager.sign_data data sk)
        (ed25519Pub sk) = false) ∧
    (∀ sk data sig, IsBytes sk → sig ≠ KeyManager.sign_data data sk →
      KeyManager.verify_signature data sig (ed25519Pub sk) = false) ∧
    (∀ data sig pk, pk.length ≠ 32 →
      KeyManager.verify_signature data sig pk = false) := by
  have hpub_inj : ∀ sk sk2 : List ℕ, IsBytes sk → IsBytes sk2 →
      ed25519Pub sk2 = ed25519Pub sk → sk2 = sk := by
    intro sk sk2 hb hb2 he
    unfold ed25519Pub at he
    have h1 := (List.cons.injEq _ _ _ _).mp he
    have h2 := (List.cons.injEq _ _ _ _).mp h1.2
    exact wEnc_inj hb2 hb h2.1
  refine ⟨verify_signature_iff, ?_, ?_, ?_, ?_⟩
  · intro sk data hb
    exact (verify_signature_iff data _ _).mpr ⟨sk, hb, rfl, rfl⟩
  · intro sk data data2 hb hd hd2 hne
    rw [Bool.eq_false_iff]
    intro h
    rcases (verify_signature_iff _ _ _).mp h with ⟨sk2, hb2, hpk, hsig⟩
    have hsk : sk2 = sk := hpub_inj sk sk2 hb hb2 hpk.symm
    subst hsk
    unfold KeyManager.sign_data at hsig
    have := (List.cons.injEq _ _ _ _).mp hsig
    have hp := Nat.pair_eq_pair.mp this.1
    exact hne (wEnc_inj hd hd2 hp.2).symm
  · intro sk data sig hb hne
    rw [Bool.eq_false_iff]
    intro h
    rcases (verify_signature_iff _ _ _).mp h with ⟨sk2, hb2, hpk, hsig⟩
    have hsk : sk2 = sk := hpub_inj sk sk2 hb hb2 hpk.symm
    subst hsk
    exact hne hsig
  · intro data sig pk hlen
    rw [Bool.eq_false_iff]
    intro h
    rcases (verify_signature_iff _ _ _).mp h with ⟨sk2, _, hpk, _⟩
    apply hlen
    rw [hpk]
    unfold ed25519Pub
    simp

/-- C4 witness: a matching pair verifies, a one-byte mutation of the data
is rejected, and a 1-byte public key yields `false` rather than an error. -/
theorem C4_verify_signature_total_and_exact_witness :
    KeyManager.verify_signature [72, 73]
      (KeyManager.sign_data [72, 73] (List.replicate 32 5))
      (ed25519Pub (List.replicate 32 5)) = true ∧
    KeyManager.verify_signature [72, 74]
      (KeyManager.sign_data [72, 73] (List.replicate 32 5))
      (ed25519Pub (List.replicate 32 5)) = false ∧
    KeyManager.verify_signature [72, 73] [0] [9] = false :=
  ⟨C4_verify_signature_total_and_exact.2.1 (List.replicate 32 5) [72, 73]
      (by decide),
   C4_verify_signature_total_and_exact.2.2.1 (List.replicate 32 5) [72, 73]
      [72, 74] (by decide) (by decide) (by decide) (by decide),
   C4_verify_signature_total_and_exact.2.2.2.2 [72, 73] [0] [9] (by decide)⟩

theorem rnd_intCast (k : ℤ) : rnd (k : ℚ) = k := by
  simp only [rnd, Int.floor_intCast, sub_self]
  rw [if_pos (by norm_num)]

theorem rnd_int_add_half (k : ℤ) :
    rnd ((k : ℚ) + 1 / 2) = k ∨ rnd ((k : ℚ) + 1 / 2) = k + 1 := by
  have hf : Int.floor ((k : ℚ) + 1 / 2) = k := by
    rw [Int.floor_int_add]
    norm_num
  simp only [rnd, hf]
  have hr : ((k : ℚ) + 1 / 2) - k = 1 / 2 := by ring
  rw [hr, if_neg (by norm_num), if_neg (by norm_num)]
  by_cases hk : k % 2 = 0
  · rw [if_pos hk]; exact Or.inl rfl
  · rw [if_neg hk]; exact Or.inr rfl

theorem qimExtract_lattice0 (k : ℤ) :
    ImageSteganography.qimExtract (ImageSteganography.delta * k) = 0 := by
  have hdiv : ImageSteganography.delta * (k : ℚ) / ImageSteganography.delta
      = (k : ℚ) := by
    simp only [ImageSteganography.delta]
    field_simp
  simp only [ImageSteganography.qimExtract, hdiv, rnd_intCast]
  have h0 : ImageSteganography.delta * (k : ℚ)
      - ImageSteganography.delta * (k : ℚ) = 0 := sub_self _
  rcases rnd_int_add_half k with h | h
  · rw [h, h0]
    have h1 : ImageSteganography.delta * (k : ℚ)
        - (ImageSteganography.delta * (k : ℚ)
          - ImageSteganography.delta / 2) = 10 := by
      simp only [ImageSteganography.delta]
      ring
    rw [h1]
    rw [if_pos (by norm_num)]
  · rw [h, h0]
    have h1 : ImageSteganography.delta * (k : ℚ)
        - (ImageSteganography.delta * ((k : ℤ) + 1 : ℤ)
          - ImageSteganography.delta / 2) = -10 := by
      simp only [ImageSteganography.delta]
      push_cast
      ring
    rw [h1]
    rw [if_pos (by norm_num)]

theorem qimExtract_lattice1 (m : ℤ) :
    ImageSteganography.qimExtract
      (ImageSteganography.delta * m - ImageSteganography.delta / 2) = 1 := by
  have hdiv : (ImageSteganography.delta * (m : ℚ)
      - ImageSteganography.delta / 2) / ImageSteganography.delta
      = ((m - 1 : ℤ) : ℚ) + 1 / 2 := by
    simp only [ImageSteganography.delta]
    push_cast
    field_simp
    ring
  simp only [ImageSteganography.qimExtract, hdiv]
  have hq1 : (((m - 1 : ℤ) : ℚ) + 1 / 2) + 1 / 2 = ((m : ℤ) : ℚ) := by
    push_cast
    ring
  rw [hq1, rnd_intCast]
  have hv : ImageSteganography.delta * (m : ℚ)
      - ImageSteganography.delta / 2
      - (ImageSteganography.delta * ((m : ℤ) : ℚ)
        - ImageSteganography.delta / 2) = 0 := by ring
  rcases rnd_int_add_half (m - 1) with h | h
  · rw [h, hv]
    have h1 : ImageSteganography.delta * (m : ℚ)
        - ImageSteganography.delta / 2
        - ImageSteganography.delta * ((m - 1 : ℤ) : ℚ) = 10 := by
      simp only [ImageSteganography.delta]
      push_cast
      ring
    rw [h1]
    rw [if_neg (by norm_num)]
  · rw [h, hv]
    have h1 : ImageSteganography.delta * (m : ℚ)
        - ImageSteganography.delta / 2
        - ImageSteganography.delta * ((m - 1 + 1 : ℤ) : ℚ) = -10 := by
      simp only [ImageSteganography.delta]
      push_cast
      ring
    rw [h1]
    rw [if_neg (by norm_num)]

/-- C7: the coefficient-level QIM round trip with step 20 and Python's
banker's rounding: embedding bit 0 (snap to the nearest multiple of 20)
or bit 1 (snap to the nearest point of the half-step-offset lattice) into
any rational coefficient produces a value from which the closer-candidate
extraction rule recovers exactly that bit. -/
theorem C7_qim_embed_extract_roundtrip (c : ℚ) :
    ImageSteganography.qimExtract (ImageSteganography.qimEmbed 0 c) = 0 ∧
    ImageSteganography.qimExtract (ImageSteganography.qimEmbed 1 c) = 1 := by
  constructor
  · have he : ImageSteganography.qimEmbed 0 c
        = ImageSteganography.delta * rnd (c / ImageSteganography.delta) := by
      simp [ImageSteganography.qimEmbed]
    rw [he]
    exact qimExtract_lattice0 _
  · have he : ImageSteganography.qimEmbed 1 c
        = ImageSteganography.delta
          * rnd (c / ImageSteganography.delta + 1 / 2)
          - ImageSteganography.delta / 2 := by
      simp [ImageSteganography.qimEmbed]
    rw [he]
    exact qimExtract_lattice1 _

theorem embedLoop_characterization (cs : List ℚ) (bs : List ℕ)
    (h : bs.length ≤ cs.length) :
    ImageSteganography.embedLoop cs bs
      = List.zipWith ImageSteganography.qimEmbed bs (cs.take bs.length)
        ++ cs.drop bs.length := by
  induction bs generalizing cs with
  | nil => simp [ImageSteganography.embedLoop]
  | cons b bs ih =>
    cases cs with
    | nil => simp at h
    | cons c cs =>
      simp only [ImageSteganography.embedLoop, List.take, List.drop,
        List.zipWith]
      rw [ih cs (by simpa using h)]
      simp

/-- C6: `_embed_in_coeffs` on the flattened level-2 detail subband fails
with the payload-too-large error — returning no modified coefficients —
exactly when the bitstream (for instance a 32-bit length prefix followed
by the payload bits) has more bits than the subband has coefficients; when
it fits, the call succeeds without that error, every bit of the bitstream
is embedded in order, and the remaining coefficients are untouched —
nothing is silently truncated. -/
theorem C6_embed_capacity_check (flat_coeffs : List ℚ)
    (payload_bits : List ℕ) :
    (payload_bits.length > flat_coeffs.length →
      ImageSteganography.embed_in_coeffs flat_coeffs payload_bits
        = .error ("Payload too large. Max capacity: "
            ++ toString flat_coeffs.length ++ " bits")) ∧
    (payload_bits.length ≤ flat_coeffs.length →
      ImageSteganography.embed_in_coeffs flat_coeffs payload_bits
        = .ok (List.zipWith ImageSteganography.qimEmbed payload_bits
            (flat_coeffs.take payload_bits.length)
          ++ flat_coeffs.drop payload_bits.length)) := by
  constructor
  · intro h
    unfold ImageSteganography.embed_in_coeffs
    rw [if_pos h]
  · intro h
    unfold ImageSteganography.embed_in_coeffs
    rw [if_neg (by omega)]
    rw [embedLoop_characterization flat_coeffs payload_bits h]

/-- C6 witness: three bits do not fit into two coefficients and the error
is raised, while two bits fit into two coefficients and are all embedded. -/
theorem C6_embed_capacity_check_witness :
    ImageSteganography.embed_in_coeffs [(3 : ℚ), 27] [1, 0, 1]
      = .error "Payload too large. Max capacity: 2 bits" ∧
    ImageSteganography.embed_in_coeffs [(3 : ℚ), 27] [1, 0]
      = .ok [ImageSteganography.qimEmbed 1 3,
             ImageSteganography.qimEmbed 0 27] :=
  ⟨(C6_embed_capacity_check [(3 : ℚ), 27] [1, 0, 1]).1 (by decide),
   (C6_embed_capacity_check [(3 : ℚ), 27] [1, 0]).2 (by decide)⟩

/-- C8 counterexample: at a concrete carrier (a level-2 subband of 1024
coefficients in a 64x64 RGB image) the dictionary returned by
`analyze_capacity` has no `recommended_max_payload` entry at all (and no
`capacity_bytes` entry either — the byte capacity is reported under
`usable_bytes`), so it does not report
`recommended_max_payload = capacity_bytes / 2` as claimed. -/
theorem C8_no_recommended_max_payload_counterexample :
    List.lookup "recommended_max_payload"
      (ImageSteganography.analyze_capacity 1024 64 64 3) = none ∧
    List.lookup "capacity_bytes"
      (ImageSteganography.analyze_capacity 1024 64 64 3) = none ∧
    List.lookup "usable_bytes"
      (ImageSteganography.analyze_capacity 1024 64 64 3) = some 124 := by
  constructor
  · rfl
  constructor
  · rfl
  · rfl

/-- C8 (amended): `analyze_capacity` reports the byte capacity of the
subband under the key `usable_bytes` as the floor division
`(subband_coefficient_count - 32) / 8` (computed over ℤ, as Python's `//`
on the possibly negative `usable_bits`), and it reports no
`recommended_max_payload` and no `capacity_bytes` entry. -/
theorem C8_analyze_capacity_fields (total_coeffs width height bands : ℕ) :
    List.lookup "usable_bytes"
        (ImageSteganography.analyze_capacity total_coeffs width height bands)
      = some ((Int.fdiv ((total_coeffs : ℤ) - 32) 8 : ℤ) : ℚ) ∧
    List.lookup "recommended_max_payload"
        (ImageSteganography.analyze_capacity total_coeffs width height bands)
      = none ∧
    List.lookup "capacity_bytes"
        (ImageSteganography.analyze_capacity total_coeffs width height bands)
      = none := by
  refine ⟨?_, ?_, ?_⟩ <;> rfl

/-- C10: the stub backends return fixed constants: whenever the audio
carrier decodes at all, `AudioSteganography.extract` returns the bytes of
`b"Extracted payload from audio"`, and `VideoSteganography.extract`
always returns the bytes of `b"Extracted payload from video"` — in both
cases independent of the carrier contents, the seed, the requested size,
and anything previously embedded. -/
theorem C10_stub_extract_constant :
    (∀ (decode : List ℕ → Option (List ℤ)) (audio seed : List ℕ) (n : ℕ)
      (s : List ℤ), decode audio = some s →
        AudioSteganography.extract decode audio seed n
          = .ok AudioSteganography.audioStubPayload) ∧
    (∀ (video seed : List ℕ) (n : ℕ),
        VideoSteganography.extract video seed n
          = VideoSteganography.videoStubPayload) := by
  constructor
  · intro decode audio seed n s hs
    unfold AudioSteganography.extract
    rw [hs]
  · intro video seed n
    rfl

/-- C10 witness: the audio stub applied to a decoder that accepts the
empty carrier, and the video stub applied to an arbitrary carrier. -/
theorem C10_stub_extract_constant_witness :
    AudioSteganography.extract (fun _ => some []) [] [] 5
      = .ok AudioSteganography.audioStubPayload ∧
    VideoSteganography.extract [1, 2, 3] [4] 7
      = VideoSteganography.videoStubPayload :=
  ⟨C10_stub_extract_constant.1 (fun _ => some []) [] [] 5 [] rfl,
   C10_stub_extract_constant.2 [1, 2, 3] [4] 7⟩

/-- C1: in the concrete scenario (session key = 32 zero bytes, message =
b"HELLO", no signing key, the 12 random nonce bytes drawn as 0x01s and
the 16 random header bytes drawn as zeros) `extract_payload` on the
unmodified output of `prepare_payload` raises the decryption error
instead of returning b"HELLO": the header is a random placeholder, the
AEAD nonce is never stored in it, and extraction decrypts with
`header[:12]`, which is not the encryption nonce.  Consequently the
claimed universal round trip is false as well. -/
theorem C1_roundtrip_fails_on_hello :
    PayloadProcessor.extract_payload
        (PayloadProcessor.prepare_payload [72, 69, 76, 76, 79]
          (List.replicate 32 0) none (List.replicate 12 1)
          (List.replicate 16 0)).1
        (List.replicate 32 0) none
      = .error "Decryption failed - incorrect key or corrupted data" ∧
    ¬ ∀ (message session_key nonceR headerR : List ℕ),
        PayloadProcessor.extract_payload
          (PayloadProcessor.prepare_payload message session_key none nonceR
            headerR).1 session_key none = .ok message := by
  have e : PayloadProcessor.extract_payload
      (PayloadProcessor.prepare_payload [72, 69, 76, 76, 79]
        (List.replicate 32 0) none (List.replicate 12 1)
        (List.replicate 16 0)).1
      (List.replicate 32 0) none
    = .error "Decryption failed - incorrect key or corrupted data" := rfl
  refine ⟨e, fun h => ?_⟩
  have h2 := h [72, 69, 76, 76, 79] (List.replicate 32 0)
    (List.replicate 12 1) (List.replicate 16 0)
  rw [e] at h2
  exact Except.noConfusion h2

/-- C2: the 16-byte header written by `prepare_payload` is exactly the 16
bytes drawn from `os.urandom(HEADER_SIZE)` — for every message, session
key, optional signing key and nonce, whatever the random tape contains
becomes the header verbatim, so no byte of it is a deterministic version,
flag, nonce or reserved-zero field. -/
theorem C2_header_is_unrelated_random_bytes (message session_key : List ℕ)
    (signing_key : Option (List ℕ)) (nonceR headerR : List ℕ)
    (h : headerR.length = 16) :
    (PayloadProcessor.prepare_payload message session_key signing_key
        nonceR headerR).1.take 16 = headerR := by
  simp only [PayloadProcessor.prepare_payload]
  exact List.take_left' h

/-- C2 witness: with a random tape of sixteen 0x07 bytes the header is
sixteen 0x07 bytes — its byte 0 is 7, not the format version 1, and its
bytes 2-13 are not the nonce (twelve 0x01 bytes) used for encryption. -/
theorem C2_header_is_unrelated_random_bytes_witness :
    (PayloadProcessor.prepare_payload [72, 69, 76, 76, 79]
        (List.replicate 32 0) none (List.replicate 12 1)
        (List.replicate 16 7)).1.take 16 = List.replicate 16 7 :=
  C2_header_is_unrelated_random_bytes [72, 69, 76, 76, 79]
    (List.replicate 32 0) none (List.replicate 12 1) (List.replicate 16 7)
    (by decide)

/-- C5: `derive_seed` called without a salt draws a fresh random 16-byte
salt but returns only the 32-byte derived value — the salt is not
returned alongside it — and the derived value depends on the discarded
salt, so the same seed cannot be reproduced from the return value. -/
theorem C5_derive_seed_discards_salt :
    (∀ key saltR, KeyManager.derive_seed key none saltR
        = hkdfSha256 key (some saltR) stegoSeedInfo ∧
      (KeyManager.derive_seed key none saltR).length = 32) ∧
    KeyManager.derive_seed (List.replicate 32 0) none (List.replicate 16 0)
      ≠ KeyManager.derive_seed (List.replicate 32 0) none
          (List.replicate 16 1) := by
  refine ⟨fun key saltR => ⟨rfl, ?_⟩, by decide⟩
  simp [KeyManager.derive_seed, hkdfSha256]

set_option maxRecDepth 100000 in
/-- C9: whether `extract_payload` strips a 64-byte signature is decided
by the `verify_key` argument, not by flag bit0 of header byte 1.  With a
header whose flag byte is zero (no signature per the header) but a verify
key (here thirty-two 0x09 bytes) supplied, the first 64 payload bytes are
still treated as a signature and extraction aborts with the signature
error; with a signed payload
(metadata records the signature) but no verify key, the signature bytes
are fed to the decryptor as ciphertext and extraction fails with the
decryption error instead of stripping the signature. -/
theorem C9_signature_presence_ignores_header_flag :
    PayloadProcessor.extract_payload
        (PayloadProcessor.prepare_payload [72, 69, 76, 76, 79]
          (List.replicate 32 0) none (List.replicate 12 1)
          (List.replicate 16 0)).1
        (List.replicate 32 0) (some (List.replicate 32 9))
      = .error "Signature verification failed" ∧
    (PayloadProcessor.prepare_payload [72, 69, 76, 76, 79]
        (List.replicate 32 0) (some (List.replicate 32 3))
        (List.replicate 12 1) (List.replicate 16 0)).2.has_signature
      = true ∧
    PayloadProcessor.extract_payload
        (PayloadProcessor.prepare_payload [72, 69, 76, 76, 79]
          (List.replicate 32 0) (some (List.replicate 32 3))
          (List.replicate 12 1) (List.replicate 16 0)).1
        (List.replicate 32 0) none
      = .error "Decryption failed - incorrect key or corrupted data" := by
  constructor
  · rfl
  constructor
  · rfl
  · rfl

end Stegano
